import Mathlib

/-!
Verification of the Wiktionary-to-Anki conversion pipeline.

This file gives a shallow embedding of the two pipeline programs
(`wiktionary_to_anki.py` and `create_anki_package.py`) and proves, or
refutes, the specification claims about them.  Python dictionaries are
modelled as insertion-ordered association lists, Python strings as Lean
`String`, machine integers as `Nat`/`Int` (no overflow is possible at the
magnitudes involved), and the fallible JSON parse of an input line as an
`Option RawEntry`.
-/

namespace WikiAnki

/-! ## Association lists (Python `dict` with insertion order) -/

/-- Lookup in an insertion-ordered association list (Python `d.get(k)`). -/
def alookup {β : Type} (k : String) : List (String × β) → Option β
  | [] => none
  | (q, v) :: rest => if q = k then some v else alookup k rest

/-- `aset k v d` models `d[k] = v`: update in place if the key exists,
otherwise append at the end (Python dicts preserve insertion order). -/
def aset {β : Type} (k : String) (v : β) : List (String × β) → List (String × β)
  | [] => [(k, v)]
  | (q, w) :: rest => if q = k then (k, v) :: rest else (q, w) :: aset k v rest

/-! ## Python string helpers -/

/-- Python `'\x1f'` separators &c.: characters the regex `\s` matches
(ASCII whitespace as used by `re.sub(r'\s+', ...)` and `str.strip()`). -/
def isPySpace (c : Char) : Bool :=
  c = ' ' || c = '\t' || c = '\n' || c = '\r' || c = '\x0b' || c = '\x0c'

/-- Python `sep.join(l)`. -/
def pyJoin (sep : String) : List String → String
  | [] => ""
  | [x] => x
  | x :: y :: rest => x ++ sep ++ pyJoin sep (y :: rest)

/-- Python `a or b` on two optional strings (`None`/empty string are falsy). -/
def pyOrStr (a b : Option String) : Option String :=
  match a with
  | some s => if s = "" then b else some s
  | none => b

/-- Python `s.startswith(pre)`. -/
def pyStartsWith (s pre : String) : Bool := pre.data.isPrefixOf s.data

/-- Python `s.lower()` (ASCII case mapping; the headwords involved carry no
non-ASCII cased letters). -/
def pyLower (s : String) : String := String.mk (s.data.map Char.toLower)

/-- Rendering of an optional string in a Python f-string (`None` prints as
`"None"`). -/
def pyStr : Option String → String
  | some s => s
  | none => "None"

/-- One pass of `re.sub(r'<[^>]+>', '', _)`: at each `<`, when some later
`>` exists with at least one character in between, the whole tag is
dropped; otherwise the `<` is kept and scanning continues.  The fuel
argument (at least the input length, each step consumes a character) makes
the recursion structural so that concrete inputs evaluate by reduction. -/
def stripTagsF : Nat → List Char → List Char
  | 0, cs => cs
  | _ + 1, [] => []
  | fuel + 1, c :: cs =>
    if c = '<' then
      match cs.findIdx? (· = '>') with
      | some i =>
        if i = 0 then c :: stripTagsF fuel cs
        else stripTagsF fuel (cs.drop (i + 1))
      | none => c :: stripTagsF fuel cs
    else c :: stripTagsF fuel cs

/-- Tag-stripping pass at adequate fuel. -/
def stripTags (cs : List Char) : List Char := stripTagsF cs.length cs

/-- `re.sub(r'\s+', ' ', _)`: collapse each whitespace run to one space. -/
def collapseWsF : Nat → List Char → List Char
  | 0, cs => cs
  | _ + 1, [] => []
  | fuel + 1, c :: cs =>
    if isPySpace c then ' ' :: collapseWsF fuel (cs.dropWhile isPySpace)
    else c :: collapseWsF fuel cs

/-- Whitespace collapsing at adequate fuel. -/
def collapseWs (cs : List Char) : List Char := collapseWsF cs.length cs

/-- Python `str.strip()` restricted to the whitespace characters above. -/
def pyStrip (cs : List Char) : List Char :=
  ((cs.dropWhile isPySpace).reverse.dropWhile isPySpace).reverse

/-- `clean_html` from `wiktionary_to_anki.py`: drop HTML-ish tags, collapse
whitespace runs to single spaces, and strip the ends. -/
def clean_html (text : String) : String :=
  if text = "" then ""
  else String.mk (pyStrip (collapseWs (stripTags text.data)))

/-- Left-to-right non-overlapping substring replacement
(Python `str.replace`). -/
def replaceAllF (pat rep : List Char) : Nat → List Char → List Char
  | 0, cs => cs
  | _ + 1, [] => []
  | fuel + 1, c :: cs =>
    if pat ≠ [] ∧ pat.isPrefixOf (c :: cs) then
      rep ++ replaceAllF pat rep fuel ((c :: cs).drop pat.length)
    else c :: replaceAllF pat rep fuel cs

/-- Substring replacement at adequate fuel. -/
def replaceAll (pat rep : List Char) (cs : List Char) : List Char :=
  replaceAllF pat rep cs.length cs

/-- `re.sub(r'\n+', '<br>', _)`: collapse each newline run to `<br>`. -/
def collapseNlF : Nat → List Char → List Char
  | 0, cs => cs
  | _ + 1, [] => []
  | fuel + 1, c :: cs =>
    if c = '\n' then
      '<' :: 'b' :: 'r' :: '>' :: collapseNlF fuel (cs.dropWhile (· = '\n'))
    else c :: collapseNlF fuel cs

/-- Newline collapsing at adequate fuel. -/
def collapseNl (cs : List Char) : List Char := collapseNlF cs.length cs

/-- `format_etymology` from `wiktionary_to_anki.py`. -/
def format_etymology (etymology_text : String) : String :=
  if etymology_text = "" then ""
  else
    let e1 := clean_html etymology_text
    let e2 := String.mk (replaceAll "Etymology tree".data [] e1.data)
    let e3 := String.mk (collapseNl e2.data)
    String.mk (pyStrip e3.data)

/-! ## Data model

`RawEntry` is one JSON object from the input stream; only the fields the
pipeline consumes are modelled.  A key that may be absent (Python's
`'k' in d` test) is an `Option`; a key read with `d.get(k, default)` and
never tested for presence is stored with the default already applied. -/

/-- One element of a raw entry's `senses` list. -/
structure Sense where
  raw_glosses : Option (List String) := none
  glosses : Option (List String) := none
  qualifier : Option String := none
  topics : Option (List String) := none
  categories : Option (List String) := none
  deriving DecidableEq, Repr

/-- One element of a raw entry's `sounds` list. -/
structure Sound where
  ipa : Option String := none
  tags : List String := []
  audio : Option String := none
  mp3_url : Option String := none
  ogg_url : Option String := none
  deriving DecidableEq, Repr

/-- One element of a raw entry's `forms` list. -/
structure Form where
  form : String := ""
  raw_tags : List String := []
  tags : List String := []
  deriving DecidableEq, Repr

/-- A raw dictionary entry (one input line that parsed as JSON). -/
structure RawEntry where
  word : String := ""
  lang : String := ""
  pos : String := ""
  senses : List Sense := []
  sounds : List Sound := []
  forms : List Form := []
  etymology_text : String := ""
  hyphenation : List String := []
  redirects : List String := []
  deriving DecidableEq, Repr

/-- A normalized flashcard record: the dict built by `process_entry`,
with keys `Front`, `Back`, `Part of Speech`, `IPA`, `Audio`, `Etymology`,
`Forms`, `Hyphenation`, `Tags`, `Frequency`. -/
structure Card where
  front : String := ""
  back : String := ""
  partOfSpeech : String := ""
  ipa : String := ""
  audio : String := ""
  etymology : String := ""
  forms : String := ""
  hyphenation : String := ""
  tags : String := ""
  frequency : String := ""
  deriving DecidableEq, Repr, Inhabited

/-! ## Field formatters (`wiktionary_to_anki.py`) -/

/-- The IPA line contributed by one `sounds` element carrying an `ipa` key. -/
def ipaLine (s : Sound) : String :=
  s.ipa.elim "" (fun i =>
    i ++ (if s.tags ≠ [] then " (" ++ pyJoin ", " s.tags ++ ")" else ""))

/-- The audio element contributed by one `sounds` element carrying an
`mp3_url` or `ogg_url` key. -/
def audioElement (s : Sound) : String :=
  let label := match s.audio with
    | some a => String.mk (replaceAll ".wav".data [] (replaceAll ".ogg".data [] a.data))
    | none => "Audio"
  let audio_url := pyStr (pyOrStr s.mp3_url s.ogg_url)
  let audio_type := if s.mp3_url.isSome then "audio/mpeg" else "audio/ogg"
  "<div><strong>" ++ label ++ ":</strong><br> <audio controls><source src=\x22" ++
    audio_url ++ "\x22 type=\x22" ++ audio_type ++
    "\x22>🔊 <a href=\x22" ++ audio_url ++ "\x22 target=\x22_blank\x22>Audio</a></audio></div>"

/-- `format_pronunciation`: the pair `(ipa_text, audio_text)`. -/
def format_pronunciation (sounds : List Sound) : String × String :=
  if sounds = [] then ("", "")
  else
    let ipa_list := (sounds.filter (·.ipa.isSome)).map ipaLine
    let audio_elements :=
      (sounds.filter (fun s => s.mp3_url.isSome || s.ogg_url.isSome)).map audioElement
    (pyJoin "<br>" ipa_list, String.join audio_elements)

/-- The `categories` fallback of the sense annotation: short non-boilerplate
category names, at most three. -/
def catSenseTags (s : Sense) : String :=
  match s.categories with
  | some cats =>
    if cats ≠ [] then
      let relevant := cats.filter (fun c => !(pyStartsWith c "English ") && c.length < 20)
      if relevant ≠ [] then "(" ++ pyJoin ", " (relevant.take 3) ++ ") " else ""
    else ""
  | none => ""

/-- The `topics` fallback of the sense annotation. -/
def topicSenseTags (s : Sense) : String :=
  match s.topics with
  | some ts => if ts ≠ [] then "(" ++ pyJoin ", " ts ++ ") " else catSenseTags s
  | none => catSenseTags s

/-- The `(qualifier | topics | categories)` annotation prefix of one sense. -/
def senseTags (s : Sense) : String :=
  match s.qualifier with
  | some q => if q ≠ "" then "(" ++ q ++ ") " else topicSenseTags s
  | none => topicSenseTags s

/-- The raw definition text of one sense (`raw_glosses` wins over `glosses`). -/
def senseText (s : Sense) : String :=
  match s.raw_glosses with
  | some gs => pyJoin "; " gs
  | none =>
    match s.glosses with
    | some gs => pyJoin "; " gs
    | none => ""

/-- The numbered line contributed by the `i`-th (1-based) sense, when its
definition text is non-empty. -/
def senseLine (i : Nat) (s : Sense) : Option String :=
  if senseText s ≠ "" then
    let clean_def := clean_html (senseText s)
    some (if pyStartsWith clean_def "(" then toString i ++ ". " ++ clean_def
          else toString i ++ ". " ++ senseTags s ++ clean_def)
  else none

/-- `format_definitions`: numbered definition lines joined by `<br>`;
numbering follows `enumerate(senses, 1)`, so skipped senses leave gaps. -/
def format_definitions (senses : List Sense) : String :=
  if senses = [] then ""
  else pyJoin "<br>" (senses.enum.filterMap (fun p => senseLine (p.1 + 1) p.2))

/-- `get_simplified_form`: first non-empty form text flagged
`Simplified Chinese` in its raw tags. -/
def get_simplified_form (forms : List Form) : Option String :=
  forms.findSome? (fun f =>
    if f.form ≠ "" ∧ "Simplified Chinese" ∈ f.raw_tags then some f.form else none)

/-- `format_forms`: `form (tag, tag)` for forms with text and tags. -/
def format_forms (forms : List Form) : String :=
  if forms = [] then ""
  else
    pyJoin "; " (forms.filterMap (fun f =>
      if f.form ≠ "" ∧ f.tags ≠ [] then
        some (f.form ++ " (" ++ pyJoin ", " f.tags ++ ")")
      else none))

/-- Membership in the ASCII character class of `is_english_word`'s first
regex: letters, digits, and the listed punctuation. -/
def isEnglishChar (c : Char) : Bool :=
  (('a' ≤ c && c ≤ 'z') || ('A' ≤ c && c ≤ 'Z') || ('0' ≤ c && c ≤ '9')) ||
  c ∈ ['.', '-', '+', '%', '~', '(', ')', '[', ']', '\x7b', '\x7d', '!', '@',
       '#', '$', '^', '&', '*', '_', '=', '|', '\\', ':', ';', '\x22', '\x27',
       '<', '>', '?', ',']

/-- Membership in the CJK ranges of `is_english_word`'s second regex. -/
def isCJKChar (c : Char) : Bool :=
  (0x4e00 ≤ c.val && c.val ≤ 0x9fff) || (0x3400 ≤ c.val && c.val ≤ 0x4dbf) ||
  (0xf900 ≤ c.val && c.val ≤ 0xfaff)

/-- `is_english_word`: headword fails the Han-script filter. -/
def is_english_word (word : String) : Bool :=
  word.data.any isEnglishChar ||
  (word.length = 1 && match word.data with
    | [c] => !isCJKChar c
    | _ => false)

/-- `process_entry`: extract one normalized record from a raw entry, or
reject it (`None`). -/
def process_entry (entry : RawEntry) : Option Card :=
  if entry.word = "" then none
  else if entry.lang ≠ "Chinese" then none
  else if is_english_word entry.word then none
  else if entry.pos = "soft-redirect" then none
  else
    let definitions := format_definitions entry.senses
    if definitions = "" then none
    else
      let pr := format_pronunciation entry.sounds
      let etymology := format_etymology entry.etymology_text
      let forms := format_forms entry.forms
      let front_word := match get_simplified_form entry.forms with
        | some s => if s = "" then entry.word else s
        | none => entry.word
      let hyphen_text := if entry.hyphenation ≠ [] then pyJoin "-" entry.hyphenation else ""
      some
        { front := front_word
          back := definitions
          partOfSpeech := entry.pos
          ipa := pr.1
          audio := pr.2
          etymology := etymology
          forms := forms
          hyphenation := hyphen_text
          tags := if entry.pos ≠ "" then "wiktionary " ++ entry.pos else "wiktionary"
          frequency := "" }

/-! ## Entry combiner (`combine_entries`) -/

/-- The mutable loop state of `combine_entries` for one headword:
`pos_definitions` (a dict), `all_pos` and `all_forms` (ordered lists). -/
structure CombineState where
  posDefs : List (String × String)
  allPos : List String
  allForms : List String
  deriving DecidableEq, Repr

/-- `pos_definitions[pos] += "<br>" + back` when the key exists,
`pos_definitions[pos] = back` otherwise. -/
def updDef (p b : String) : List (String × String) → List (String × String)
  | [] => [(p, b)]
  | (q, d) :: rest =>
    if q = p then (q, d ++ "<br>" ++ b) :: rest else (q, d) :: updDef p b rest

/-- One iteration of the `for entry in entries` loop of `combine_entries`.
The three updates of the Python body are independent of one another. -/
def combineStep (s : CombineState) (e : Card) : CombineState :=
  { posDefs :=
      if e.partOfSpeech ≠ "" ∧ e.back ≠ "" then updDef e.partOfSpeech e.back s.posDefs
      else s.posDefs
    allPos :=
      if e.partOfSpeech ≠ "" ∧ e.partOfSpeech ∉ s.allPos then s.allPos ++ [e.partOfSpeech]
      else s.allPos
    allForms :=
      if e.forms ≠ "" ∧ e.forms ∉ s.allForms then s.allForms ++ [e.forms]
      else s.allForms }

/-- The combined flashcard for one headword (`first` is `entries[0]`). -/
def combineCard (first : Card) (entries : List Card) : Card :=
  let st := entries.foldl combineStep ⟨[], [], []⟩
  let combined_back := st.allPos.filterMap (fun p =>
    (alookup p st.posDefs).map (fun d => "<strong>" ++ p ++ ":</strong><br>" ++ d))
  { front := first.front
    back := pyJoin "<br><br>" combined_back
    partOfSpeech := pyJoin ", " st.allPos
    ipa := first.ipa
    audio := first.audio
    etymology := first.etymology
    forms := pyJoin "; " st.allForms
    hyphenation := first.hyphenation
    tags := "wiktionary " ++ pyJoin " " st.allPos
    frequency := "" }

/-- `combine_entries`: one combined card per headword with a non-empty
record list, in the dict's insertion order. -/
def combine_entries (entries_dict : List (String × List Card)) : List (String × Card) :=
  entries_dict.filterMap (fun p =>
    match p.2 with
    | [] => none
    | first :: _ => some (p.1, combineCard first p.2))

/-! ## Main-loop state machine (`main` of `wiktionary_to_anki.py`) -/

/-- The mutable state of the input-reading loop. -/
structure PState where
  processedCount : Nat
  entriesByWord : List (String × List Card)
  redirectMap : List (String × String)
  pendingRedirects : List (String × List String)
  deriving DecidableEq, Repr

/-- Starting state of the loop. -/
def initState : PState := ⟨0, [], [], []⟩

/-- Insert the clone for one pending redirect source, skipping sources that
already have entries or fail the script filter (the body of
`for redirect_word in pending_redirects[word]`). -/
def cloneStep (card : Card) (m : List (String × List Card)) (rw : String) :
    List (String × List Card) :=
  if alookup rw m = none ∧ is_english_word rw = false then
    aset rw [{ card with front := rw }] m
  else m

/-- Processing of one successfully parsed entry (the `try` body after
`json.loads`, without the `--limit` early exit). -/
def stepLine (st : PState) (entry : RawEntry) : PState :=
  let st := { st with processedCount := st.processedCount + 1 }
  if entry.word = "" then st
  else if entry.pos = "soft-redirect" then
    match entry.redirects with
    | [] => st
    | target :: _ =>
      { st with
        redirectMap := aset entry.word target st.redirectMap
        pendingRedirects :=
          aset target ((alookup target st.pendingRedirects).getD [] ++ [entry.word])
            st.pendingRedirects }
  else
    match process_entry entry with
    | none => st
    | some card =>
      let m1 := aset entry.word
        ((alookup entry.word st.entriesByWord).getD [] ++ [card]) st.entriesByWord
      match alookup entry.word st.pendingRedirects with
      | none => { st with entriesByWord := m1 }
      | some sources =>
        { st with entriesByWord := sources.foldl (cloneStep card) m1 }

/-- Processing of one input line: a line that fails to parse as JSON
(`none`) is skipped and leaves the state unchanged. -/
def procLine (st : PState) (line : Option RawEntry) : PState :=
  match line with
  | none => st
  | some entry => stepLine st entry

/-- Run the reading loop over the whole input stream. -/
def procAll (lines : List (Option RawEntry)) : PState :=
  lines.foldl procLine initState

/-- Line numbers (1-based, continuing from `n`) of the malformed lines, each
of which gets one `Error parsing line N` warning printed. -/
def parseErrorsFrom (n : Nat) : List (Option RawEntry) → List Nat
  | [] => []
  | none :: rest => n :: parseErrorsFrom (n + 1) rest
  | some _ :: rest => parseErrorsFrom (n + 1) rest

/-- Line numbers of all malformed lines of the stream (`enumerate(infile, 1)`
starts counting at 1). -/
def parseErrors (lines : List (Option RawEntry)) : List Nat :=
  parseErrorsFrom 1 lines

/-! ## Frequency ranker -/

/-- `get_frequency_rank`: rank as text, trying the word then its lowercase
form, with Python truthiness on the dict and on the rank. -/
def get_frequency_rank (word : String) (frequency_dict : List (String × Nat)) : String :=
  if frequency_dict = [] then ""
  else
    let rank :=
      match alookup word frequency_dict with
      | some r => if r = 0 then alookup (pyLower word) frequency_dict else some r
      | none => alookup (pyLower word) frequency_dict
    match rank with
    | some r => if r ≠ 0 then toString r else ""
    | none => ""

/-- The `Adding frequency data...` loop: store each combined card's
frequency text. -/
def withFreq (combined : List (String × Card)) (frequency_dict : List (String × Nat)) :
    List (String × Card) :=
  combined.map (fun p => (p.1, { p.2 with frequency := get_frequency_rank p.1 frequency_dict }))

/-- The comparison key of `sorted_cards.sort(key=lambda x: x[0])`. -/
def rankLe (a b : Nat × String × Card) : Prop := a.1 ≤ b.1

instance : DecidableRel rankLe := fun a b => inferInstanceAs (Decidable (a.1 ≤ b.1))

instance : IsTotal (Nat × String × Card) rankLe := ⟨fun a b => Nat.le_total a.1 b.1⟩

instance : IsTrans (Nat × String × Card) rankLe := ⟨fun _ _ _ h h2 => Nat.le_trans h h2⟩

/-- The candidate triples `(freq, word, card_data)` of the
`Sorting by frequency...` loop: records long enough and whose lowercased
headword has a frequency entry. -/
def freqCandidates (combined : List (String × Card)) (frequency_dict : List (String × Nat))
    (minDefLength : Nat) : List (Nat × String × Card) :=
  combined.filterMap (fun p =>
    if p.2.back.length ≥ minDefLength then
      (alookup (pyLower p.1) frequency_dict).map (fun f => (f, p.1, p.2))
    else none)

/-- `sorted_cards.sort(key=lambda x: x[0]); top_cards = sorted_cards[:max_cards]`.
Python's `list.sort` is a stable sort, as is `List.insertionSort` with a
total preorder, so the two agree. -/
def selectTopCards (combined : List (String × Card)) (frequency_dict : List (String × Nat))
    (minDefLength maxCards : Nat) : List (Nat × String × Card) :=
  ((freqCandidates combined frequency_dict minDefLength).insertionSort rankLe).take maxCards

/-- The hard-coded truncation bound `max_cards = 1000000` of `main`. -/
def max_cards : Nat := 1000000

/-- The CSV-writing loop `for rank, (freq, word, card_data) in
enumerate(top_cards, 1)`: overwrite `Frequency` with the 1-based rank. -/
def writeRows (top : List (Nat × String × Card)) : List Card :=
  top.enum.map (fun p => { p.2.2.2 with frequency := toString (p.1 + 1) })

/-- The rows written by one full run of `main` (no `--limit`). -/
def pipelineRows (lines : List (Option RawEntry)) (frequency_dict : List (String × Nat))
    (minDefLength : Nat) : List Card :=
  writeRows (selectTopCards (withFreq (combine_entries (procAll lines).entriesByWord)
    frequency_dict) frequency_dict minDefLength max_cards)

/-- The end-of-run summary printed by `main`: `Processed`, `Combined into`,
and `Created` counts (plus the output file name, not modelled). -/
structure RunSummary where
  processed : Nat
  combinedWords : Nat
  created : Nat
  deriving DecidableEq, Repr

/-- Summary of one full run of `main`. -/
def summaryOf (lines : List (Option RawEntry)) (frequency_dict : List (String × Nat))
    (minDefLength : Nat) : RunSummary :=
  let st := procAll lines
  { processed := st.processedCount
    combinedWords := (combine_entries st.entriesByWord).length
    created := (pipelineRows lines frequency_dict minDefLength).length }

/-! ## Package serializer (`create_anki_package.py`) -/

/-- The ordered field-name list of the note type inserted by
`insert_note_type` (`flds`, `ord` 0 to 10). -/
def noteTypeFieldNames : List String :=
  ["Front", "Back", "Part of Speech", "IPA", "Audio", "Etymology", "Forms",
   "Hyphenation", "Stroke Order", "Tags", "Frequency"]

/-- `generate_stroke_order`: one `<img>` tag per CJK-unified-ideograph
character of the word. -/
def generate_stroke_order (word : String) : String :=
  if word = "" then ""
  else
    let chinese_chars := word.data.filter (fun c => 0x4e00 ≤ c.val && c.val ≤ 0x9fff)
    if chinese_chars = [] then ""
    else
      String.join (chinese_chars.map (fun c =>
        "<img width=\x22640\x22 src=\x22" ++ String.mk [c] ++ ".svg\x22>"))

/-- A row of the intermediate CSV as `csv.DictReader` yields it: an
association of column names to cell text. -/
def CsvRow : Type := List (String × String)

/-- `row.get(key, '')`. -/
def rowGet (row : CsvRow) (key : String) : String :=
  (alookup key row).getD ""

/-- The eleven field strings packed into a note row by
`insert_cards_from_csv`, in order. -/
def packedFields (row : CsvRow) : List String :=
  let front_word := rowGet row "Front"
  [front_word, rowGet row "Back", rowGet row "Part of Speech", rowGet row "IPA",
   rowGet row "Audio", rowGet row "Etymology", rowGet row "Forms",
   rowGet row "Hyphenation", generate_stroke_order front_word, rowGet row "Tags",
   rowGet row "Frequency"]

/-- The reserved field-separator byte `'\x1f'`. -/
def fieldSep : Char := '\x1f'

/-- `'\x1f'.join(...)`: the packed `flds` value of a note row, as its
character sequence. -/
def packFieldsChars (row : CsvRow) : List Char :=
  List.intercalate [fieldSep] ((packedFields row).map String.data)

/-- Splitting a packed field string on the separator byte
(`fields.split('\x1f')`, as the maintenance utility does when reading). -/
def splitFieldsChars (cs : List Char) : List (List Char) :=
  cs.splitOn fieldSep

/-- One row of the `notes` table as inserted by `insert_cards_from_csv`. -/
structure NoteRow where
  id : Nat
  guid : String
  mid : Nat
  mod : Nat
  usn : Int
  tags : String
  flds : List Char
  sfld : String
  csum : Nat
  flags : Nat
  data : String
  deriving DecidableEq, Repr

/-- One row of the `cards` table as inserted by `insert_cards_from_csv`. -/
structure CardRow where
  id : Nat
  nid : Nat
  did : Nat
  ord : Nat
  mod : Nat
  usn : Int
  type : Int
  queue : Int
  due : Nat
  ivl : Int
  factor : Int
  reps : Nat
  lapses : Nat
  left : Nat
  odue : Nat
  odid : Nat
  flags : Nat
  data : String
  deriving DecidableEq, Repr

/-- `note_id = int(time.time() * 1000) + i`, where `base i` is the
millisecond clock reading taken while emitting row `i`. -/
def noteId (base : Nat → Nat) (i : Nat) : Nat := base i + i

/-- The fixed note-id/card-id offset. -/
def cardIdOffset : Nat := 1000000

/-- `card_id = note_id + 1000000`. -/
def cardId (base : Nat → Nat) (i : Nat) : Nat := noteId base i + cardIdOffset

/-- The note row emitted for the `i`-th (0-based) CSV row. -/
def mkNoteRow (base : Nat → Nat) (modTime : Nat) (note_type_id : Nat) (i : Nat)
    (row : CsvRow) : NoteRow :=
  { id := noteId base i
    guid := "note_" ++ toString (noteId base i)
    mid := note_type_id
    mod := modTime
    usn := 0
    tags := ""
    flds := packFieldsChars row
    sfld := String.mk ((rowGet row "Front").data.take 64)
    csum := 0
    flags := 0
    data := "" }

/-- The card row emitted for the `i`-th (0-based) CSV row; the placeholder
values are those of the `INSERT INTO cards` statement. -/
def mkCardRow (base : Nat → Nat) (modTime : Nat) (deck_id : Nat) (i : Nat) : CardRow :=
  { id := cardId base i
    nid := noteId base i
    did := deck_id
    ord := 0
    mod := modTime
    usn := -1
    type := 0
    queue := -1
    due := i + 1
    ivl := 0
    factor := 0
    reps := 0
    lapses := 0
    left := 0
    odue := 0
    odid := 0
    flags := 0
    data := "" }

/-- The queue value the maintenance utility `unsuspend_words.py` tests for
when deciding that a card is suspended (`if queue == -1`). -/
def suspendedQueue : Int := -1

/-- The queue value `unsuspend_words.py` writes to unsuspend a card and
return it to the new-card queue (`UPDATE cards SET queue = 0`). -/
def newQueue : Int := 0

/-! ## Specification-side descriptions of the combiner

These restate, directly from the spec's words, what `combine_entries` is
claimed to compute; the combiner theorems identify them with the code. -/

/-- First-seen-order deduplication: keep the first occurrence of each
string. -/
def dedupFirst : List String → List String
  | [] => []
  | a :: as => a :: dedupFirst (as.filter (· ≠ a))
  termination_by l => l.length
  decreasing_by
    rename_i as
    have := List.length_filter_le (fun x => decide (x ≠ target)) as
    simp only [List.length_cons]
    omega

/-- The elements of `l` not yet in `seen` and non-empty, first occurrences
only, in order. -/
def newFirst (seen : List String) : List String → List String
  | [] => []
  | p :: ps =>
    if p ≠ "" ∧ p ∉ seen then p :: newFirst (seen ++ [p]) ps
    else newFirst seen ps

/-- The ordered, deduplicated union of the contributing (non-empty) parts
of speech. -/
def specPosList (entries : List Card) : List String :=
  dedupFirst ((entries.map (·.partOfSpeech)).filter (· ≠ ""))

/-- The `back` texts contributed to part of speech `p`, in order. -/
def backsFor (p : String) (entries : List Card) : List String :=
  (entries.filter (fun e => e.partOfSpeech = p && e.back ≠ "")).map (·.back)

/-- One definition block: a bolded part-of-speech label heading that part's
definitions, joined by single line breaks. -/
def specBlock (p : String) (bs : List String) : String :=
  "<strong>" ++ p ++ ":</strong><br>" ++ pyJoin "<br>" bs

/-- The per-part-of-speech definition blocks, in first-seen part-of-speech
order, for the parts of speech with at least one contributed definition. -/
def specBlocks (entries : List Card) : List String :=
  (specPosList entries).filterMap (fun p =>
    if backsFor p entries = [] then none else some (specBlock p (backsFor p entries)))

/-- The ordered, deduplicated list of non-empty formatted `forms` strings. -/
def specForms (entries : List Card) : List String :=
  dedupFirst ((entries.map (·.forms)).filter (· ≠ ""))

/-- Accumulate definition texts for one part of speech: how the dict entry
`pos_definitions[p]` evolves when the texts `bs` are appended to `o`. -/
def joinBacksOpt (o : Option String) (bs : List String) : Option String :=
  match bs with
  | [] => o
  | _ :: _ =>
    match o with
    | none => some (pyJoin "<br>" bs)
    | some d => some (d ++ "<br>" ++ pyJoin "<br>" bs)

/-! ## Concrete inputs used by counterexamples and witnesses -/

/-- The non-decreasing but fast-advancing clock of the C8 counterexample. -/
def c8JumpClock : Nat → Nat := fun i => if i = 0 then 0 else 999999

/-- Raw entry with a usable definition but no `pos` key: the C7
counterexample input. -/
def c7Entry : RawEntry :=
  { word := "猫", lang := "Chinese", senses := [{ glosses := some ["cat"] }] }

/-- The normalized record extracted from `c7Entry`: non-empty `back`, empty
part of speech. -/
def c7Card : Card := { front := "猫", back := "1. cat", tags := "wiktionary" }

/-- Raw entry used to witness C7 as amended. -/
def c7WEntry : RawEntry :=
  { word := "猫", lang := "Chinese", pos := "noun", senses := [{ glosses := some ["cat"] }] }

/-- The record extracted from `c7WEntry`. -/
def c7WCard : Card :=
  { front := "猫", back := "1. cat", partOfSpeech := "noun", tags := "wiktionary noun" }

/-- Soft-redirect entry used in the C5 witness (two listed targets). -/
def c5Redir : RawEntry := { word := "甲", pos := "soft-redirect", redirects := ["乙", "丙"] }

/-- Target entry used in the C5 witness. -/
def c5Target : RawEntry :=
  { word := "乙", lang := "Chinese", pos := "noun", senses := [{ glosses := some ["second"] }] }

/-- The record extracted from `c5Target`. -/
def c5TCard : Card :=
  { front := "乙", back := "1. second", partOfSpeech := "noun", tags := "wiktionary noun" }

/-- A pre-existing organic record for the headword `戊`. -/
def c5OtherCard : Card :=
  { front := "戊", back := "1. x", partOfSpeech := "noun", tags := "wiktionary noun" }

/-- Loop state used in the C5 witness: `戊` already has an entry, and `乙`
has the pending sources `甲` (fresh), `戊` (already present) and `cat`
(fails the script filter). -/
def c5State : PState :=
  { processedCount := 1
    entriesByWord := [("戊", [c5OtherCard])]
    redirectMap := [("甲", "乙")]
    pendingRedirects := [("乙", ["甲", "戊", "cat"])] }

/-- Target entry of the C2 counterexample, appearing before its redirect. -/
def c2Target : RawEntry :=
  { word := "乙", lang := "Chinese", pos := "noun", senses := [{ glosses := some ["cat"] }] }

/-- Soft-redirect entry of the C2 counterexample, appearing after every
entry of its target. -/
def c2Redir : RawEntry := { word := "甲", pos := "soft-redirect", redirects := ["乙"] }

/-- The record extracted from `c2Target`. -/
def c2TCard : Card :=
  { front := "乙", back := "1. cat", partOfSpeech := "noun", tags := "wiktionary noun" }

/-- Organic entry for `丁`, extracted after a clone already sits on `丁`. -/
def c10Entry : RawEntry :=
  { word := "丁", lang := "Chinese", pos := "verb", senses := [{ glosses := some ["to do"] }] }

/-- The record extracted from `c10Entry`. -/
def c10Card : Card :=
  { front := "丁", back := "1. to do", partOfSpeech := "verb", tags := "wiktionary verb" }

/-- The redirect clone already holding the headword `丁`. -/
def c10Clone : Card :=
  { front := "丁", back := "1. fourth", partOfSpeech := "noun", ipa := "PA",
    tags := "wiktionary noun" }

/-- Loop state of the C10 witness: `丁` holds exactly its clone. -/
def c10State : PState :=
  { processedCount := 2
    entriesByWord := [("丁", [c10Clone])]
    redirectMap := [("丁", "乙")]
    pendingRedirects := [("乙", ["丁"])] }

/-- Target entry whose extraction produced the redirect clone `c10Clone`. -/
def c10Target : RawEntry :=
  { word := "乜", lang := "Chinese", pos := "noun",
    senses := [{ glosses := some ["fourth"] }], sounds := [{ ipa := some "PA" }] }

/-- The record extracted from `c10Target` (`c10Clone` is this record with
`front` overwritten by the redirect source `丁`). -/
def c10TCard : Card :=
  { front := "乜", back := "1. fourth", partOfSpeech := "noun", ipa := "PA",
    tags := "wiktionary noun" }

/-- Organic noun entry for `丁`, sharing the clone's part of speech. -/
def c10EntryN : RawEntry :=
  { word := "丁", lang := "Chinese", pos := "noun",
    senses := [{ glosses := some ["to strike"] }] }

/-- The record extracted from `c10EntryN`. -/
def c10CardN : Card :=
  { front := "丁", back := "1. to strike", partOfSpeech := "noun",
    tags := "wiktionary noun" }

/-- Part-of-speech-less target entry of the C10 counterexample. -/
def c10BadTarget : RawEntry :=
  { word := "乜", lang := "Chinese", senses := [{ glosses := some ["fourth"] }] }

/-- The record extracted from `c10BadTarget`: non-empty `back`, empty part
of speech. -/
def c10BadTCard : Card := { front := "乜", back := "1. fourth", tags := "wiktionary" }

/-- The redirect clone of `c10BadTCard` for the source `丁`. -/
def c10BadClone : Card := { front := "丁", back := "1. fourth", tags := "wiktionary" }

/-- Loop state of the C10 counterexample: `丁` holds exactly the
part-of-speech-less clone. -/
def c10BadState : PState :=
  { processedCount := 2
    entriesByWord := [("丁", [c10BadClone])]
    redirectMap := [("丁", "乜")]
    pendingRedirects := [("乜", ["丁"])] }

/-- Raw entry used in the C9 counterexample streams. -/
def c9Entry : RawEntry :=
  { word := "丙", lang := "Chinese", pos := "noun", senses := [{ glosses := some ["third"] }] }

/-- Frequency map used in the C9 counterexample streams. -/
def c9Freq : List (String × Nat) := [("丙", 5)]

/-- The combined card of the C3 witness scenario (headword `猫` at corpus
rank 37, cap 1). -/
def c3CatCard : Card :=
  { front := "猫", back := "1. cat", partOfSpeech := "noun", tags := "wiktionary noun" }

/-! ## Theorems -/

theorem alookup_aset_self {β : Type} (k : String) (v : β) (d : List (String × β)) :
    alookup k (aset k v d) = some v := by
  induction d with
  | nil => simp [aset, alookup]
  | cons p rest ih =>
    by_cases h : p.1 = k
    · simp [aset, alookup, h]
    · simp [aset, alookup, h, ih]

theorem alookup_aset_ne {β : Type} {k q : String} (v : β) (d : List (String × β))
    (h : k ≠ q) : alookup q (aset k v d) = alookup q d := by
  induction d with
  | nil => simp [aset, alookup, h]
  | cons p rest ih =>
    by_cases hp : p.1 = k
    · simp [aset, alookup, hp, h, ih]
    · simp only [aset, hp, if_false]
      by_cases hq : p.1 = q <;> simp [alookup, hq, ih]

theorem packedFields_ne_nil (row : CsvRow) : packedFields row ≠ [] := by
  simp [packedFields]

theorem packedFields_length (row : CsvRow) : (packedFields row).length = 11 := by
  simp [packedFields]

/-- Claim C1: the packed `flds` string of every emitted note row, split on
the reserved separator byte, yields exactly the note type's declared field
count (11 fields, in declared order), provided no field's text contains the
separator byte. -/
theorem c1_note_row_field_count (base : Nat → Nat) (modTime note_type_id i : Nat)
    (row : CsvRow) (hsep : ∀ f ∈ packedFields row, fieldSep ∉ f.data) :
    splitFieldsChars (mkNoteRow base modTime note_type_id i row).flds =
      (packedFields row).map String.data ∧
    (splitFieldsChars (mkNoteRow base modTime note_type_id i row).flds).length =
      noteTypeFieldNames.length := by
  have hsplit : splitFieldsChars (mkNoteRow base modTime note_type_id i row).flds =
      (packedFields row).map String.data := by
    show ([fieldSep].intercalate ((packedFields row).map String.data)).splitOn fieldSep = _
    refine List.splitOn_intercalate _ fieldSep ?_ ?_
    · intro l hl
      obtain ⟨f, hf, rfl⟩ := List.mem_map.mp hl
      exact hsep f hf
    · simp [packedFields]
  refine ⟨hsplit, ?_⟩
  rw [hsplit, List.length_map, packedFields_length]
  rfl

/-- Witness for C1 at a concrete CSV row. -/
theorem c1_note_row_field_count_witness :
    (∀ f ∈ packedFields [("Front", "猫"), ("Back", "1. cat")], fieldSep ∉ f.data) ∧
    (splitFieldsChars
      (mkNoteRow (fun _ => 0) 0 1 0 [("Front", "猫"), ("Back", "1. cat")]).flds).length =
      noteTypeFieldNames.length :=
  ⟨by decide, (c1_note_row_field_count (fun _ => 0) 0 1 0 _ (by decide)).2⟩

/-- Claim C4, counterexample: the queue column of every emitted card row is
written as `-1`, the value the repository's own maintenance utility treats
as the suspended queue (it issues `UPDATE cards SET queue = 0` to return
such a card to the new queue), not the new-card queue value `0`. -/
theorem c4_queue_suspended_counterexample :
    (mkCardRow (fun _ => 0) 0 1 0).queue = suspendedQueue ∧ suspendedQueue ≠ newQueue := by
  constructor
  · rfl
  · decide

/-- Claim C4 as amended: every emitted card row carries zero placeholders in
the type/interval/ease-factor/reps/lapses columns (a never-reviewed card),
but its queue column is written as the suspended-queue value `-1`, not the
new-card queue value `0`: every card starts suspended. -/
theorem c4_card_row_scheduling_state (base : Nat → Nat) (modTime deck_id i : Nat) :
    (mkCardRow base modTime deck_id i).type = 0 ∧
    (mkCardRow base modTime deck_id i).ivl = 0 ∧
    (mkCardRow base modTime deck_id i).factor = 0 ∧
    (mkCardRow base modTime deck_id i).reps = 0 ∧
    (mkCardRow base modTime deck_id i).lapses = 0 ∧
    (mkCardRow base modTime deck_id i).queue = suspendedQueue ∧
    (mkCardRow base modTime deck_id i).queue ≠ newQueue := by
  refine ⟨rfl, rfl, rfl, rfl, rfl, rfl, ?_⟩
  show (-1 : Int) ≠ 0
  decide

/-- Claim C8, counterexample: with a non-decreasing time source and only two
emitted records (far fewer than the offset's worth), a note id can still
collide with a card id — the clock only has to advance by nearly the offset
between the two rows. -/
theorem c8_id_collision_counterexample :
    (∀ i j, i ≤ j → c8JumpClock i ≤ c8JumpClock j) ∧
    2 < cardIdOffset ∧
    noteId c8JumpClock 1 = cardId c8JumpClock 0 := by
  refine ⟨?_, by decide, rfl⟩
  intro i j hij
  by_cases hi : i = 0
  · by_cases hj : j = 0 <;> simp [c8JumpClock, hi, hj]
  · have hj : j ≠ 0 := by omega
    simp [c8JumpClock, hi, hj]

/-- Claim C8 as amended: each card id is its note id plus the fixed offset
1000000 and hence strictly greater; with a non-decreasing time source note
ids strictly increase in emission order; and the note-id and card-id spaces
of one run of `n` records are disjoint provided the clock additionally
advances by less than the offset minus `n - 1` during the run. -/
theorem c8_identifier_generation (base : Nat → Nat) (n i j : Nat)
    (hmono : ∀ a b, a ≤ b → base a ≤ base b)
    (hi : i < n) (hj : j < n)
    (hdrift : base (n - 1) + (n - 1) < base 0 + cardIdOffset) :
    cardId base i = noteId base i + cardIdOffset ∧
    noteId base i < cardId base i ∧
    (i < j → noteId base i < noteId base j) ∧
    noteId base i ≠ cardId base j := by
  refine ⟨rfl, ?_, ?_, ?_⟩
  · have : 0 < cardIdOffset := by decide
    simp only [cardId]
    omega
  · intro hij
    have hb := hmono i j (Nat.le_of_lt hij)
    simp only [noteId]
    omega
  · have h1 : base i ≤ base (n - 1) := hmono i (n - 1) (by omega)
    have h2 : base 0 ≤ base j := hmono 0 j (Nat.zero_le j)
    simp only [noteId, cardId]
    omega

/-- Witness for C8 as amended, at a constant clock and a two-record run. -/
theorem c8_identifier_generation_witness :
    noteId (fun _ => 5) 0 < cardId (fun _ => 5) 0 ∧
    noteId (fun _ => 5) 0 < noteId (fun _ => 5) 1 ∧
    noteId (fun _ => 5) 0 ≠ cardId (fun _ => 5) 1 := by
  have h := c8_identifier_generation (fun _ => 5) 2 0 1
    (fun _ _ _ => Nat.le_refl 5) (by decide) (by decide) (by decide)
  exact ⟨(c8_identifier_generation (fun _ => 5) 2 0 0
    (fun _ _ _ => Nat.le_refl 5) (by decide) (by decide) (by decide)).2.1,
    h.2.2.1 (by decide), h.2.2.2⟩

theorem pyJoin_cons (sep x : String) (xs : List String) :
    pyJoin sep (x :: xs) = if xs = [] then x else x ++ sep ++ pyJoin sep xs := by
  cases xs <;> simp [pyJoin]

theorem pyJoin_ne_empty (sep x : String) (xs : List String) (hx : x ≠ "") :
    pyJoin sep (x :: xs) ≠ "" := by
  have hxd : x.data ≠ [] := fun h => hx (String.ext h)
  rw [pyJoin_cons]
  split_ifs
  · exact hx
  · intro h
    have hd := congrArg String.data h
    simp only [String.data_append] at hd
    have : x.data = [] := by
      have := List.append_eq_nil.mp (List.append_eq_nil.mp hd).1
      exact this.1
    exact hxd this

theorem mem_dedupFirst {x : String} : ∀ {l : List String}, x ∈ dedupFirst l ↔ x ∈ l := by
  intro l
  induction l using dedupFirst.induct with
  | case1 => simp [dedupFirst]
  | case2 a as ih =>
    simp only [dedupFirst, List.mem_cons, ih, List.mem_filter]
    by_cases hxa : x = a
    · simp [hxa]
    · simp [hxa]

theorem nodup_dedupFirst : ∀ (l : List String), (dedupFirst l).Nodup := by
  intro l
  induction l using dedupFirst.induct with
  | case1 => simp [dedupFirst]
  | case2 a as ih =>
    simp only [dedupFirst, List.nodup_cons]
    refine ⟨fun hmem => ?_, ih⟩
    have := List.mem_filter.mp (mem_dedupFirst.mp hmem)
    simp at this

theorem alookup_updDef_self (p b : String) (m : List (String × String)) :
    alookup p (updDef p b m) =
      some ((alookup p m).elim b (fun d => d ++ "<br>" ++ b)) := by
  induction m with
  | nil => simp [updDef, alookup]
  | cons q rest ih =>
    by_cases hq : q.1 = p
    · simp [updDef, alookup, hq]
    · simp [updDef, alookup, hq, ih]

theorem alookup_updDef_ne {q p : String} (hqp : q ≠ p) (b : String)
    (m : List (String × String)) : alookup p (updDef q b m) = alookup p m := by
  induction m with
  | nil => simp [updDef, alookup, hqp]
  | cons r rest ih =>
    by_cases hr : r.1 = q
    · simp [updDef, alookup, hr, hqp, ih]
    · simp only [updDef, hr, if_false]
      by_cases hrp : r.1 = p <;> simp [alookup, hrp, ih]

theorem newFirst_eq (ps : List String) : ∀ (seen : List String),
    newFirst seen ps = dedupFirst ((ps.filter (· ≠ "")).filter (· ∉ seen)) := by
  induction ps with
  | nil => intro seen; simp [newFirst, dedupFirst]
  | cons p ps ih =>
    intro seen
    by_cases hp : p = ""
    · subst hp
      rw [newFirst, if_neg (by simp)]
      rw [List.filter_cons, if_neg (by simp)]
      exact ih seen
    · by_cases hseen : p ∈ seen
      · rw [newFirst, if_neg (by simp [hseen])]
        rw [List.filter_cons, if_pos (by simpa using hp)]
        rw [List.filter_cons, if_neg (by simpa using hseen)]
        exact ih seen
      · have hf : ((ps.filter (· ≠ "")).filter (· ∉ (seen ++ [p]))) =
            (((ps.filter (· ≠ "")).filter (· ∉ seen)).filter (· ≠ p)) := by
          simp only [List.filter_filter]
          refine List.filter_congr fun x _ => ?_
          by_cases h1 : x ∈ seen <;> by_cases h2 : x = p <;> by_cases h3 : x = "" <;>
            simp [h1, h2, h3]
        rw [newFirst, if_pos ⟨hp, hseen⟩]
        rw [List.filter_cons, if_pos (by simpa using hp)]
        rw [List.filter_cons, if_pos (by simpa using hseen)]
        rw [ih (seen ++ [p]), hf]
        simp [dedupFirst]

theorem foldl_combineStep_allPos (l : List Card) : ∀ (s : CombineState),
    (l.foldl combineStep s).allPos =
      s.allPos ++ newFirst s.allPos (l.map (·.partOfSpeech)) := by
  induction l with
  | nil => intro s; simp [newFirst]
  | cons e l ih =>
    intro s
    simp only [List.foldl_cons, List.map_cons]
    by_cases hc : e.partOfSpeech ≠ "" ∧ e.partOfSpeech ∉ s.allPos
    · have hstep : (combineStep s e).allPos = s.allPos ++ [e.partOfSpeech] := by
        simp [combineStep, hc]
      rw [ih, hstep, newFirst, if_pos hc, List.append_assoc]
      rfl
    · have hstep : (combineStep s e).allPos = s.allPos := by
        simp only [combineStep]
        rw [if_neg hc]
      rw [ih, hstep, newFirst, if_neg hc]

theorem foldl_combineStep_allForms (l : List Card) : ∀ (s : CombineState),
    (l.foldl combineStep s).allForms =
      s.allForms ++ newFirst s.allForms (l.map (·.forms)) := by
  induction l with
  | nil => intro s; simp [newFirst]
  | cons e l ih =>
    intro s
    simp only [List.foldl_cons, List.map_cons]
    by_cases hc : e.forms ≠ "" ∧ e.forms ∉ s.allForms
    · have hstep : (combineStep s e).allForms = s.allForms ++ [e.forms] := by
        simp [combineStep, hc]
      rw [ih, hstep, newFirst, if_pos hc, List.append_assoc]
      rfl
    · have hstep : (combineStep s e).allForms = s.allForms := by
        simp only [combineStep]
        rw [if_neg hc]
      rw [ih, hstep, newFirst, if_neg hc]

theorem backsFor_cons (p : String) (e : Card) (l : List Card) :
    backsFor p (e :: l) =
      if e.partOfSpeech = p ∧ e.back ≠ "" then e.back :: backsFor p l
      else backsFor p l := by
  simp only [backsFor, List.filter_cons]
  by_cases h1 : e.partOfSpeech = p <;> by_cases h2 : e.back = "" <;>
    simp [h1, h2]

theorem foldl_combineStep_posDefs (l : List Card) : ∀ (s : CombineState) (p : String),
    p ≠ "" →
    alookup p (l.foldl combineStep s).posDefs =
      joinBacksOpt (alookup p s.posDefs) (backsFor p l) := by
  induction l with
  | nil => intro s p _; simp [backsFor, joinBacksOpt]
  | cons e l ih =>
    intro s p hp
    simp only [List.foldl_cons]
    rw [ih _ p hp, backsFor_cons]
    by_cases h1 : e.partOfSpeech = p <;> by_cases h2 : e.back = ""
    · -- contributes nothing: empty back
      rw [if_neg (by simp [h2])]
      have hstep : (combineStep s e).posDefs = s.posDefs := by
        simp only [combineStep]
        rw [if_neg (by simp [h2])]
      rw [hstep]
    · -- contributes its back to this part of speech
      rw [if_pos ⟨h1, h2⟩]
      have hstep : (combineStep s e).posDefs = updDef p e.back s.posDefs := by
        simp only [combineStep]
        rw [if_pos ⟨by rw [h1]; exact hp, h2⟩, h1]
      rw [hstep, alookup_updDef_self]
      rcases halo : alookup p s.posDefs with _ | d <;>
        rcases hb : backsFor p l with _ | ⟨b0, bs⟩ <;>
          simp [joinBacksOpt, pyJoin, String.append_assoc]
    · -- different part of speech, empty back: no update
      rw [if_neg (by simp [h1])]
      have hstep : (combineStep s e).posDefs = s.posDefs := by
        simp only [combineStep]
        rw [if_neg (by simp [h2])]
      rw [hstep]
    · -- different part of speech, non-empty back: update at the other key
      rw [if_neg (by simp [h1])]
      by_cases h3 : e.partOfSpeech = ""
      · have hstep : (combineStep s e).posDefs = s.posDefs := by
          simp only [combineStep]
          rw [if_neg (by simp [h3])]
        rw [hstep]
      · have hstep : (combineStep s e).posDefs = updDef e.partOfSpeech e.back s.posDefs := by
          simp only [combineStep]
          rw [if_pos ⟨h3, h2⟩]
        rw [hstep, alookup_updDef_ne h1]

theorem newFirst_nil_seen (l : List String) :
    newFirst [] l = dedupFirst (l.filter (· ≠ "")) := by
  rw [newFirst_eq]
  congr 1
  refine List.filter_eq_self.mpr fun x _ => by simp

theorem combineCard_allPos (entries : List Card) :
    (entries.foldl combineStep ⟨[], [], []⟩).allPos = specPosList entries := by
  rw [foldl_combineStep_allPos]
  show [] ++ newFirst [] _ = _
  rw [List.nil_append, newFirst_nil_seen]
  rfl

theorem combineCard_partOfSpeech (first : Card) (entries : List Card) :
    (combineCard first entries).partOfSpeech = pyJoin ", " (specPosList entries) := by
  show pyJoin ", " (entries.foldl combineStep ⟨[], [], []⟩).allPos = _
  rw [combineCard_allPos]

theorem combineCard_tags (first : Card) (entries : List Card) :
    (combineCard first entries).tags = "wiktionary " ++ pyJoin " " (specPosList entries) := by
  show "wiktionary " ++ pyJoin " " (entries.foldl combineStep ⟨[], [], []⟩).allPos = _
  rw [combineCard_allPos]

theorem combineCard_forms (first : Card) (entries : List Card) :
    (combineCard first entries).forms = pyJoin "; " (specForms entries) := by
  show pyJoin "; " (entries.foldl combineStep ⟨[], [], []⟩).allForms = _
  rw [foldl_combineStep_allForms]
  show pyJoin "; " ([] ++ newFirst [] _) = _
  rw [List.nil_append, newFirst_nil_seen]
  rfl

theorem mem_specPosList_ne_empty {p : String} {entries : List Card}
    (hp : p ∈ specPosList entries) : p ≠ "" := by
  have := mem_dedupFirst.mp hp
  have := (List.mem_filter.mp this).2
  simpa using this

theorem combineCard_back (first : Card) (entries : List Card) :
    (combineCard first entries).back = pyJoin "<br><br>" (specBlocks entries) := by
  show pyJoin "<br><br>"
      ((entries.foldl combineStep ⟨[], [], []⟩).allPos.filterMap fun p =>
        (alookup p (entries.foldl combineStep ⟨[], [], []⟩).posDefs).map
          (fun d => "<strong>" ++ p ++ ":</strong><br>" ++ d)) = _
  rw [combineCard_allPos]
  congr 1
  refine List.filterMap_congr fun p hp => ?_
  have hpne : p ≠ "" := mem_specPosList_ne_empty hp
  rw [foldl_combineStep_posDefs _ _ _ hpne]
  show (joinBacksOpt none (backsFor p entries)).map _ = _
  rcases hb : backsFor p entries with _ | ⟨b, bs⟩ <;>
    simp [joinBacksOpt, specBlock]

/-- Claim C6: for every headword and non-empty ordered record sequence, the
combined card's `partOfSpeech` is the first-seen-order deduplicated union of
the non-empty contributing parts of speech joined for display; `back` joins
the per-part-of-speech blocks with a paragraph break, each headed by a
bolded label, definitions inside one block joined by a single line break;
`ipa`/`audio`/`etymology`/`hyphenation` come from the first contributing
record only; and exact textual repeats among `forms` strings appear once. -/
theorem c6_combine_entries_structure (first : Card) (rest : List Card) :
    (combineCard first (first :: rest)).partOfSpeech =
      pyJoin ", " (specPosList (first :: rest)) ∧
    (combineCard first (first :: rest)).back =
      pyJoin "<br><br>" (specBlocks (first :: rest)) ∧
    (combineCard first (first :: rest)).ipa = first.ipa ∧
    (combineCard first (first :: rest)).audio = first.audio ∧
    (combineCard first (first :: rest)).etymology = first.etymology ∧
    (combineCard first (first :: rest)).hyphenation = first.hyphenation ∧
    (combineCard first (first :: rest)).forms = pyJoin "; " (specForms (first :: rest)) ∧
    (specPosList (first :: rest)).Nodup ∧
    (specForms (first :: rest)).Nodup := by
  exact ⟨combineCard_partOfSpeech first _, combineCard_back first _, rfl, rfl, rfl, rfl,
    combineCard_forms first _, nodup_dedupFirst _, nodup_dedupFirst _⟩

theorem specBlock_ne_empty (p : String) (bs : List String) : specBlock p bs ≠ "" := by
  intro h
  have hd := congrArg String.data h
  simp [specBlock, String.data_append] at hd

theorem mem_specBlocks_ne_empty {b : String} {entries : List Card}
    (hb : b ∈ specBlocks entries) : b ≠ "" := by
  obtain ⟨p, _, hgp⟩ := List.mem_filterMap.mp hb
  by_cases hcase : backsFor p entries = []
  · rw [if_pos hcase] at hgp
    exact absurd hgp (by simp)
  · rw [if_neg hcase] at hgp
    have hgp2 : specBlock p (backsFor p entries) = b := by
      exact (Option.some.injEq _ _).mp hgp
    exact hgp2 ▸ specBlock_ne_empty p (backsFor p entries)

theorem process_entry_back (e : RawEntry) (c : Card)
    (hpe : process_entry e = some c) :
    c.back = format_definitions e.senses ∧ c.back ≠ "" := by
  simp only [process_entry] at hpe
  by_cases h1 : e.word = ""
  · rw [if_pos h1] at hpe; exact absurd hpe (by simp)
  rw [if_neg h1] at hpe
  by_cases h2 : e.lang ≠ "Chinese"
  · rw [if_pos h2] at hpe; exact absurd hpe (by simp)
  rw [if_neg h2] at hpe
  by_cases h3 : is_english_word e.word = true
  · rw [if_pos h3] at hpe; exact absurd hpe (by simp)
  rw [if_neg h3] at hpe
  by_cases h4 : e.pos = "soft-redirect"
  · rw [if_pos h4] at hpe; exact absurd hpe (by simp)
  rw [if_neg h4] at hpe
  by_cases h5 : format_definitions e.senses = ""
  · rw [if_pos h5] at hpe; exact absurd hpe (by simp)
  rw [if_neg h5] at hpe
  have hc : _ = c := (Option.some.injEq _ _).mp hpe
  rw [← hc]
  exact ⟨rfl, h5⟩

/-- Claim C7, counterexample: a raw entry with a usable definition but an
empty part-of-speech tag is extracted with a non-empty `back`, yet the
combined record built from it has an empty `back` — records with empty
`partOfSpeech` contribute no definition block, so non-emptiness of `back`
does not survive combination. -/
theorem c7_empty_back_counterexample :
    process_entry c7Entry = some c7Card ∧
    c7Card.back ≠ "" ∧
    combine_entries [("猫", [c7Card])] = [("猫", combineCard c7Card [c7Card])] ∧
    (combineCard c7Card [c7Card]).back = "" := by
  refine ⟨by decide, by decide, rfl, by decide⟩

/-- Claim C7 as amended: every NormalizedRecord returned by `process_entry`
has a non-empty `back` (an entry from which no definition text can be
formatted yields `None`), and a CombinedRecord built by the Entry Combiner
has a non-empty `back` provided at least one contributing record has both a
non-empty part of speech and a non-empty `back`; a contributing record
whose part of speech is empty contributes no definition block. -/
theorem c7_back_nonempty (e : RawEntry) (c : Card) (first : Card) (rest : List Card)
    (hpe : process_entry e = some c)
    (hex : ∃ x ∈ first :: rest, x.partOfSpeech ≠ "" ∧ x.back ≠ "") :
    c.back ≠ "" ∧ (combineCard first (first :: rest)).back ≠ "" := by
  refine ⟨(process_entry_back e c hpe).2, ?_⟩
  rw [combineCard_back]
  obtain ⟨x, hx, hpos, hback⟩ := hex
  have hmemp : x.partOfSpeech ∈ specPosList (first :: rest) := by
    refine mem_dedupFirst.mpr (List.mem_filter.mpr ⟨List.mem_map_of_mem _ hx, by simpa⟩)
  have hbacks : backsFor x.partOfSpeech (first :: rest) ≠ [] := by
    have hxf : x ∈ (first :: rest).filter
        (fun e => e.partOfSpeech = x.partOfSpeech && e.back ≠ "") := by
      refine List.mem_filter.mpr ⟨hx, by simp [hback]⟩
    exact fun hnil => by
      have := List.mem_map_of_mem (·.back) hxf
      rw [show ((first :: rest).filter
          (fun e => e.partOfSpeech = x.partOfSpeech && e.back ≠ "")).map (·.back) =
        backsFor x.partOfSpeech (first :: rest) from rfl, hnil] at this
      exact List.not_mem_nil _ this
  have hblock : specBlock x.partOfSpeech (backsFor x.partOfSpeech (first :: rest)) ∈
      specBlocks (first :: rest) := by
    refine List.mem_filterMap.mpr ⟨x.partOfSpeech, hmemp, ?_⟩
    rw [if_neg hbacks]
  rcases hsb : specBlocks (first :: rest) with _ | ⟨b, bs⟩
  · rw [hsb] at hblock
    exact absurd hblock (List.not_mem_nil _)
  · exact pyJoin_ne_empty _ b bs (mem_specBlocks_ne_empty (hsb ▸ List.mem_cons_self b bs))

/-- Witness for C7 as amended at a concrete noun entry. -/
theorem c7_back_nonempty_witness :
    c7WCard.back ≠ "" ∧ (combineCard c7WCard [c7WCard]).back ≠ "" :=
  c7_back_nonempty c7WEntry c7WCard c7WCard [] (by decide)
    ⟨c7WCard, by simp, by decide, by decide⟩

theorem process_entry_word_ne (e : RawEntry) (c : Card)
    (hpe : process_entry e = some c) : e.word ≠ "" := by
  intro h
  simp only [process_entry] at hpe
  rw [if_pos h] at hpe
  exact absurd hpe (by simp)

theorem process_entry_pos_ne (e : RawEntry) (c : Card)
    (hpe : process_entry e = some c) : e.pos ≠ "soft-redirect" := by
  intro h
  simp only [process_entry] at hpe
  rw [if_neg (by simp [process_entry_word_ne e c hpe])] at hpe
  by_cases h2 : e.lang ≠ "Chinese"
  · rw [if_pos h2] at hpe; exact absurd hpe (by simp)
  rw [if_neg h2] at hpe
  by_cases h3 : is_english_word e.word = true
  · rw [if_pos h3] at hpe; exact absurd hpe (by simp)
  rw [if_neg h3] at hpe
  rw [if_pos h] at hpe
  exact absurd hpe (by simp)

theorem stepLine_redirect_eq (st : PState) (e : RawEntry) (t : String)
    (trest : List String) (hw : e.word ≠ "") (hp : e.pos = "soft-redirect")
    (hr : e.redirects = t :: trest) :
    stepLine st e =
      { processedCount := st.processedCount + 1
        entriesByWord := st.entriesByWord
        redirectMap := aset e.word t st.redirectMap
        pendingRedirects :=
          aset t ((alookup t st.pendingRedirects).getD [] ++ [e.word])
            st.pendingRedirects } := by
  simp only [stepLine, hw, hp, hr]
  rfl

theorem stepLine_entry_eq (st : PState) (e : RawEntry) (card : Card)
    (hpe : process_entry e = some card) :
    stepLine st e =
      { processedCount := st.processedCount + 1
        entriesByWord :=
          (match alookup e.word st.pendingRedirects with
            | none =>
              aset e.word ((alookup e.word st.entriesByWord).getD [] ++ [card])
                st.entriesByWord
            | some sources =>
              sources.foldl (cloneStep card)
                (aset e.word ((alookup e.word st.entriesByWord).getD [] ++ [card])
                  st.entriesByWord))
        redirectMap := st.redirectMap
        pendingRedirects := st.pendingRedirects } := by
  have hw := process_entry_word_ne e card hpe
  have hp := process_entry_pos_ne e card hpe
  simp only [stepLine, hw, hp, hpe]
  rcases alookup e.word st.pendingRedirects with _ | sources <;> simp

theorem cloneFold_lookup_of_isSome (card : Card) (sources : List String) :
    ∀ (m : List (String × List Card)) (rw : String),
    alookup rw m ≠ none →
    alookup rw (sources.foldl (cloneStep card) m) = alookup rw m := by
  induction sources with
  | nil => intro m rw _; rfl
  | cons s rest ih =>
    intro m rw hne
    simp only [List.foldl_cons]
    by_cases hc : alookup s m = none ∧ is_english_word s = false
    · have hsrw : s ≠ rw := fun h => hne (h ▸ hc.1)
      have hstep : cloneStep card m s = aset s [{ card with front := s }] m := by
        simp [cloneStep, hc]
      rw [hstep]
      rw [ih _ rw (by rw [alookup_aset_ne _ _ hsrw]; exact hne),
        alookup_aset_ne _ _ hsrw]
    · have hstep : cloneStep card m s = m := by
        simp only [cloneStep]
        rw [if_neg hc]
      rw [hstep, ih _ rw hne]

theorem cloneFold_lookup_of_english (card : Card) (sources : List String) :
    ∀ (m : List (String × List Card)) (rw : String),
    is_english_word rw = true →
    alookup rw (sources.foldl (cloneStep card) m) = alookup rw m := by
  induction sources with
  | nil => intro m rw _; rfl
  | cons s rest ih =>
    intro m rw heng
    simp only [List.foldl_cons]
    by_cases hc : alookup s m = none ∧ is_english_word s = false
    · have hsrw : s ≠ rw := fun h => by rw [h, heng] at hc; exact absurd hc.2 (by simp)
      have hstep : cloneStep card m s = aset s [{ card with front := s }] m := by
        simp [cloneStep, hc]
      rw [hstep, ih _ rw heng, alookup_aset_ne _ _ hsrw]
    · have hstep : cloneStep card m s = m := by
        simp only [cloneStep]
        rw [if_neg hc]
      rw [hstep, ih _ rw heng]

theorem cloneFold_lookup_of_mem (card : Card) (sources : List String) :
    ∀ (m : List (String × List Card)) (rw : String),
    rw ∈ sources →
    alookup rw m = none →
    is_english_word rw = false →
    alookup rw (sources.foldl (cloneStep card) m) =
      some [{ card with front := rw }] := by
  induction sources with
  | nil => intro m rw hmem _ _; exact absurd hmem (List.not_mem_nil rw)
  | cons s rest ih =>
    intro m rw hmem hnone heng
    simp only [List.foldl_cons]
    by_cases hsrw : s = rw
    · subst hsrw
      have hstep : cloneStep card m s = aset s [{ card with front := s }] m := by
        simp [cloneStep, hnone, heng]
      rw [hstep]
      rw [cloneFold_lookup_of_isSome card rest _ s
        (by rw [alookup_aset_self]; simp), alookup_aset_self]
    · have hmem2 : rw ∈ rest := by
        rcases List.mem_cons.mp hmem with h | h
        · exact absurd h.symm hsrw
        · exact h
      by_cases hc : alookup s m = none ∧ is_english_word s = false
      · have hstep : cloneStep card m s = aset s [{ card with front := s }] m := by
          simp [cloneStep, hc]
        rw [hstep]
        exact ih _ rw hmem2 (by rw [alookup_aset_ne _ _ hsrw]; exact hnone) heng
      · have hstep : cloneStep card m s = m := by
          simp only [cloneStep]
          rw [if_neg hc]
        rw [hstep]
        exact ih _ rw hmem2 hnone heng

theorem stepLine_clone_lookup (st : PState) (e : RawEntry) (card : Card) (rw : String)
    (hpe : process_entry e = some card)
    (hmem : rw ∈ (alookup e.word st.pendingRedirects).getD [])
    (hne : rw ≠ e.word)
    (hnone : alookup rw st.entriesByWord = none)
    (heng : is_english_word rw = false) :
    alookup rw (stepLine st e).entriesByWord = some [{ card with front := rw }] := by
  rw [stepLine_entry_eq st e card hpe]
  rcases halo : alookup e.word st.pendingRedirects with _ | sources
  · rw [halo] at hmem
    exact absurd hmem (List.not_mem_nil rw)
  · rw [halo] at hmem
    simp only
    exact cloneFold_lookup_of_mem card sources _ rw hmem
      (by rw [alookup_aset_ne _ _ (fun h => hne h.symm)]; exact hnone) heng

theorem stepLine_preserves_lookup_of_isSome (st : PState) (e : RawEntry) (card : Card)
    (rw : String) (hpe : process_entry e = some card) (hne : rw ≠ e.word)
    (hsome : alookup rw st.entriesByWord ≠ none) :
    alookup rw (stepLine st e).entriesByWord = alookup rw st.entriesByWord := by
  rw [stepLine_entry_eq st e card hpe]
  have haset : alookup rw (aset e.word
      ((alookup e.word st.entriesByWord).getD [] ++ [card]) st.entriesByWord) =
      alookup rw st.entriesByWord :=
    alookup_aset_ne _ _ (fun h => hne h.symm)
  rcases alookup e.word st.pendingRedirects with _ | sources
  · exact haset
  · simp only
    rw [cloneFold_lookup_of_isSome card sources _ rw (by rw [haset]; exact hsome), haset]

theorem stepLine_preserves_lookup_of_english (st : PState) (e : RawEntry) (card : Card)
    (rw : String) (hpe : process_entry e = some card) (hne : rw ≠ e.word)
    (heng : is_english_word rw = true) :
    alookup rw (stepLine st e).entriesByWord = alookup rw st.entriesByWord := by
  rw [stepLine_entry_eq st e card hpe]
  have haset : alookup rw (aset e.word
      ((alookup e.word st.entriesByWord).getD [] ++ [card]) st.entriesByWord) =
      alookup rw st.entriesByWord :=
    alookup_aset_ne _ _ (fun h => hne h.symm)
  rcases alookup e.word st.pendingRedirects with _ | sources
  · exact haset
  · simp only
    rw [cloneFold_lookup_of_english card sources _ rw heng, haset]

theorem pending_mem_stepLine (st : PState) (e : RawEntry) (t rw : String)
    (hmem : rw ∈ (alookup t st.pendingRedirects).getD []) :
    rw ∈ (alookup t (stepLine st e).pendingRedirects).getD [] := by
  by_cases hw : e.word = ""
  · simp only [stepLine, hw]
    simpa using hmem
  by_cases hp : e.pos = "soft-redirect"
  · rcases hr : e.redirects with _ | ⟨t0, trest⟩
    · simp only [stepLine, hw, hp, hr]
      simpa using hmem
    · rw [stepLine_redirect_eq st e t0 trest hw hp hr]
      by_cases ht : t0 = t
      · subst ht
        simp only [alookup_aset_self, Option.getD_some]
        exact List.mem_append_left _ hmem
      · rw [alookup_aset_ne _ _ ht]
        exact hmem
  · rcases hpe : process_entry e with _ | card
    · simp only [stepLine, hw, hp, hpe]
      simpa using hmem
    · rw [stepLine_entry_eq st e card hpe]
      exact hmem

theorem pending_mem_procAll (lines : List (Option RawEntry)) :
    ∀ (st : PState) (t rw : String),
    rw ∈ (alookup t st.pendingRedirects).getD [] →
    rw ∈ (alookup t (lines.foldl procLine st).pendingRedirects).getD [] := by
  induction lines with
  | nil => intro st t rw hmem; exact hmem
  | cons line rest ih =>
    intro st t rw hmem
    simp only [List.foldl_cons]
    rcases line with _ | e
    · exact ih st t rw hmem
    · exact ih _ t rw (pending_mem_stepLine st e t rw hmem)

/-- Claim C5: a soft-redirect entry records only the first listed target
(`redirect_map[word] = redirects[0]`, the rest are ignored) and appends the
source to that single target's pending list; when a target's record is
subsequently extracted, each pending source gets one clone with `front`
overwritten by the source headword — unless the source already has entries
or fails the script filter, in which case the source's entry table is left
untouched (first-writer-wins). -/
theorem c5_redirect_bookkeeping :
    (∀ (st : PState) (e : RawEntry) (t : String) (trest : List String),
      e.word ≠ "" → e.pos = "soft-redirect" → e.redirects = t :: trest →
      (stepLine st e).redirectMap = aset e.word t st.redirectMap ∧
      (stepLine st e).pendingRedirects =
        aset t ((alookup t st.pendingRedirects).getD [] ++ [e.word])
          st.pendingRedirects ∧
      (stepLine st e).entriesByWord = st.entriesByWord ∧
      stepLine st e = stepLine st { e with redirects := [t] }) ∧
    (∀ (st : PState) (e : RawEntry) (card : Card) (rw : String),
      process_entry e = some card →
      rw ∈ (alookup e.word st.pendingRedirects).getD [] → rw ≠ e.word →
      alookup rw st.entriesByWord = none → is_english_word rw = false →
      alookup rw (stepLine st e).entriesByWord = some [{ card with front := rw }]) ∧
    (∀ (st : PState) (e : RawEntry) (card : Card) (rw : String),
      process_entry e = some card → rw ≠ e.word →
      alookup rw st.entriesByWord ≠ none →
      alookup rw (stepLine st e).entriesByWord = alookup rw st.entriesByWord) ∧
    (∀ (st : PState) (e : RawEntry) (card : Card) (rw : String),
      process_entry e = some card → rw ≠ e.word →
      is_english_word rw = true →
      alookup rw (stepLine st e).entriesByWord = alookup rw st.entriesByWord) := by
  refine ⟨?_, ?_, ?_, ?_⟩
  · intro st e t trest hw hp hr
    rw [stepLine_redirect_eq st e t trest hw hp hr,
      stepLine_redirect_eq st { e with redirects := [t] } t [] hw hp rfl]
    exact ⟨rfl, rfl, rfl, rfl⟩
  · intro st e card rw hpe hmem hne hnone heng
    exact stepLine_clone_lookup st e card rw hpe hmem hne hnone heng
  · intro st e card rw hpe hne hsome
    exact stepLine_preserves_lookup_of_isSome st e card rw hpe hne hsome
  · intro st e card rw hpe hne heng
    exact stepLine_preserves_lookup_of_english st e card rw hpe hne heng

/-- Witness for C5 at concrete states: the redirect is recorded with only
its first target; the fresh source gets the clone; the occupied source and
the filtered source are skipped. -/
theorem c5_redirect_bookkeeping_witness :
    (stepLine initState c5Redir).pendingRedirects = [("乙", ["甲"])] ∧
    alookup "甲" (stepLine c5State c5Target).entriesByWord =
      some [{ c5TCard with front := "甲" }] ∧
    alookup "戊" (stepLine c5State c5Target).entriesByWord = some [c5OtherCard] ∧
    alookup "cat" (stepLine c5State c5Target).entriesByWord = none := by
  have h := c5_redirect_bookkeeping
  refine ⟨?_, ?_, ?_, ?_⟩
  · rw [(h.1 initState c5Redir "乙" ["丙"] (by decide) (by decide) (by decide)).2.1]
    decide
  · rw [h.2.1 c5State c5Target c5TCard "甲" (by decide) (by decide) (by decide)
      (by decide) (by decide)]
  · rw [h.2.2.1 c5State c5Target c5TCard "戊" (by decide) (by decide) (by decide)]
    decide
  · rw [h.2.2.2 c5State c5Target c5TCard "cat" (by decide) (by decide) (by decide)]
    decide

/-- Claim C2, counterexample: when every entry of the redirect's target
precedes the soft-redirect in the stream, no CombinedRecord is produced for
the source headword, even though the source passes the script filter, never
receives an organic record, and the target was successfully extracted —
resolution only fires when a target entry is extracted after the redirect
was recorded. -/
theorem c2_prior_target_counterexample :
    is_english_word "甲" = false ∧
    (process_entry c2Target).isSome = true ∧
    alookup "甲" (procAll [some c2Target, some c2Redir]).entriesByWord = none ∧
    (combine_entries (procAll [some c2Target, some c2Redir]).entriesByWord).map
      (fun p => p.1) = ["乙"] := by
  decide

/-- Claim C2 as amended: a soft-redirect produces a record for its source
when at least one entry of its first listed target is extracted after the
redirect is read: if the stream reads the redirect and later a target entry
that extracts to `tcard`, and the source passed the script filter and never
received an organic record before that point, the source's record list
becomes the single clone of `tcard` with `front` replaced by the source
headword.  When every target entry precedes the redirect, no record results
(see the counterexample). -/
theorem c2_redirect_resolved_after_registration (l1 l2 : List (Option RawEntry))
    (re te : RawEntry) (tcard : Card) (rw : String) (trest : List String)
    (hrw : re.word = rw) (hw : rw ≠ "") (hrpos : re.pos = "soft-redirect")
    (hrr : re.redirects = te.word :: trest)
    (hte : process_entry te = some tcard)
    (hne : rw ≠ te.word)
    (hnone : alookup rw ((l1 ++ some re :: l2).foldl procLine initState).entriesByWord =
      none)
    (heng : is_english_word rw = false) :
    alookup rw (((l1 ++ some re :: l2) ++ [some te]).foldl procLine
      initState).entriesByWord = some [{ tcard with front := rw }] := by
  rw [List.foldl_append]
  show alookup rw
    (stepLine ((l1 ++ some re :: l2).foldl procLine initState) te).entriesByWord = _
  have hsplit : (l1 ++ some re :: l2).foldl procLine initState =
      l2.foldl procLine (stepLine (l1.foldl procLine initState) re) := by
    rw [List.foldl_append]
    rfl
  have hpend : rw ∈ (alookup te.word
      ((l1 ++ some re :: l2).foldl procLine initState).pendingRedirects).getD [] := by
    rw [hsplit]
    apply pending_mem_procAll
    rw [stepLine_redirect_eq _ re te.word trest (by rw [hrw]; exact hw) hrpos hrr]
    simp only [alookup_aset_self, Option.getD_some]
    refine List.mem_append_right _ ?_
    rw [hrw]
    exact List.mem_singleton_self rw
  exact stepLine_clone_lookup _ te tcard rw hte hpend hne hnone heng

/-- Witness for C2 as amended: redirect first, target second. -/
theorem c2_redirect_resolved_after_registration_witness :
    alookup "甲" ((([] ++ some c2Redir :: []) ++ [some c2Target]).foldl procLine
      initState).entriesByWord = some [{ c2TCard with front := "甲" }] :=
  c2_redirect_resolved_after_registration [] [] c2Redir c2Target c2TCard "甲" []
    (by decide) (by decide) (by decide) (by decide) (by decide) (by decide)
    (by decide) (by decide)

/-- Claim C10, counterexample: when the redirect clone's record has an
empty part-of-speech tag (its target entry carried no `pos` key), the
organic record is still appended after the clone, but the resulting
CombinedRecord's `back` holds only the organic record's definitions — the
clone's non-empty definition text does not occur in it at all, so `back`
does not merge both records' definitions as the claim states. -/
theorem c10_empty_pos_clone_counterexample :
    process_entry c10BadTarget = some c10BadTCard ∧
    c10BadClone = { c10BadTCard with front := "丁" } ∧
    process_entry c10Entry = some c10Card ∧
    alookup "丁" (stepLine c10BadState c10Entry).entriesByWord =
      some [c10BadClone, c10Card] ∧
    c10BadClone.back ≠ "" ∧
    (combineCard c10BadClone [c10BadClone, c10Card]).back =
      "<strong>verb:</strong><br>1. to do" ∧
    ¬ (c10BadClone.back.data <:+:
        (combineCard c10BadClone [c10BadClone, c10Card]).back.data) := by
  refine ⟨by decide, by decide, by decide, by decide, by decide, by decide, by decide⟩

/-- Claim C10 as amended: a redirect clone does not permanently claim its
source headword: if, when an entry for headword `w` is organically
extracted to `card`, `w` already holds exactly the clone of the target's
record `tcard` (with `front` replaced by `w`), then the organic record is
appended after the clone — not skipped, not a replacement, so the clone is
no longer the sole record; the resulting CombinedRecord takes
`ipa`/`audio`/`etymology`/`hyphenation` from the clone, i.e. from the
target's data; and its `back` merges both records' definitions — in one
shared block when the parts of speech coincide, in two blocks when they
differ — provided the records involved carry non-empty part-of-speech
tags (a record with an empty tag contributes no definitions to `back`,
see the counterexample). -/
theorem c10_organic_record_appended_after_clone (st : PState) (e te : RawEntry)
    (card tcard clone : Card)
    (hpe : process_entry e = some card)
    (hte : process_entry te = some tcard)
    (hcl : clone = { tcard with front := e.word })
    (hprior : alookup e.word st.entriesByWord = some [clone]) :
    alookup e.word (stepLine st e).entriesByWord = some [clone, card] ∧
    (combineCard clone [clone, card]).ipa = tcard.ipa ∧
    (combineCard clone [clone, card]).audio = tcard.audio ∧
    (combineCard clone [clone, card]).etymology = tcard.etymology ∧
    (combineCard clone [clone, card]).hyphenation = tcard.hyphenation ∧
    (tcard.partOfSpeech = card.partOfSpeech → card.partOfSpeech ≠ "" →
      (combineCard clone [clone, card]).back =
        specBlock card.partOfSpeech [tcard.back, card.back]) ∧
    (tcard.partOfSpeech ≠ card.partOfSpeech → tcard.partOfSpeech ≠ "" →
      card.partOfSpeech ≠ "" →
      (combineCard clone [clone, card]).back =
        specBlock tcard.partOfSpeech [tcard.back] ++ "<br><br>" ++
          specBlock card.partOfSpeech [card.back]) := by
  have hb1 : clone.back ≠ "" := by
    rw [hcl]
    exact (process_entry_back te tcard hte).2
  have hb2 : card.back ≠ "" := (process_entry_back e card hpe).2
  subst hcl
  refine ⟨?_, rfl, rfl, rfl, rfl, ?_, ?_⟩
  · rw [stepLine_entry_eq st e card hpe]
    have haset : alookup e.word (aset e.word
        ((alookup e.word st.entriesByWord).getD [] ++ [card]) st.entriesByWord) =
        some [{ tcard with front := e.word }, card] := by
      rw [alookup_aset_self, hprior]
      rfl
    rcases alookup e.word st.pendingRedirects with _ | sources
    · exact haset
    · simp only
      rw [cloneFold_lookup_of_isSome card sources _ e.word (by rw [haset]; simp), haset]
  · intro hpos hpne
    rw [combineCard_back]
    have hposlist : specPosList [{ tcard with front := e.word }, card] =
        [card.partOfSpeech] := by
      simp [specPosList, List.filter, hpos, hpne, dedupFirst]
    have hbacks : backsFor card.partOfSpeech [{ tcard with front := e.word }, card] =
        [tcard.back, card.back] := by
      simp [backsFor, List.filter, hpos, hb1, hb2]
    have hblocks : specBlocks [{ tcard with front := e.word }, card] =
        [specBlock card.partOfSpeech [tcard.back, card.back]] := by
      simp only [specBlocks, hposlist, List.filterMap_cons, List.filterMap_nil, hbacks]
      simp
    rw [hblocks]
    rfl
  · intro hpp hp1 hp2
    have hpp2 : card.partOfSpeech ≠ tcard.partOfSpeech := fun h => hpp h.symm
    rw [combineCard_back]
    have hposlist : specPosList [{ tcard with front := e.word }, card] =
        [tcard.partOfSpeech, card.partOfSpeech] := by
      simp [specPosList, List.filter, hp1, hp2, dedupFirst, hpp2]
    have hbacks1 : backsFor tcard.partOfSpeech [{ tcard with front := e.word }, card] =
        [tcard.back] := by
      simp [backsFor, List.filter, hb1, hpp2]
    have hbacks2 : backsFor card.partOfSpeech [{ tcard with front := e.word }, card] =
        [card.back] := by
      simp [backsFor, List.filter, hb2, hpp]
    have hblocks : specBlocks [{ tcard with front := e.word }, card] =
        [specBlock tcard.partOfSpeech [tcard.back],
         specBlock card.partOfSpeech [card.back]] := by
      simp only [specBlocks, hposlist, List.filterMap_cons, hbacks1, hbacks2]
      simp
    rw [hblocks]
    simp [pyJoin, String.append_assoc]

/-- Witness for C10 as amended at concrete clone-then-organic-extraction
histories, covering both the distinct-parts-of-speech and the shared
part-of-speech merge. -/
theorem c10_organic_record_appended_after_clone_witness :
    alookup "丁" (stepLine c10State c10Entry).entriesByWord = some [c10Clone, c10Card] ∧
    (combineCard c10Clone [c10Clone, c10Card]).ipa = "PA" ∧
    (combineCard c10Clone [c10Clone, c10Card]).back =
      specBlock "noun" ["1. fourth"] ++ "<br><br>" ++ specBlock "verb" ["1. to do"] ∧
    (combineCard c10Clone [c10Clone, c10CardN]).back =
      specBlock "noun" ["1. fourth", "1. to strike"] := by
  have hd := c10_organic_record_appended_after_clone c10State c10Entry c10Target
    c10Card c10TCard c10Clone (by decide) (by decide) (by decide) (by decide)
  have hs := c10_organic_record_appended_after_clone c10State c10EntryN c10Target
    c10CardN c10TCard c10Clone (by decide) (by decide) (by decide) (by decide)
  refine ⟨hd.1, ?_, ?_, ?_⟩
  · rw [hd.2.1]
    rfl
  · rw [hd.2.2.2.2.2.2 (by decide) (by decide) (by decide)]
    rfl
  · rw [hs.2.2.2.2.2.1 (by decide) (by decide)]
    rfl

theorem stepLine_processedCount (st : PState) (e : RawEntry) :
    (stepLine st e).processedCount = st.processedCount + 1 := by
  by_cases hw : e.word = ""
  · simp [stepLine, hw]
  by_cases hp : e.pos = "soft-redirect"
  · rcases hr : e.redirects with _ | ⟨t, trest⟩
    · simp [stepLine, hw, hp, hr]
    · rw [stepLine_redirect_eq st e t trest hw hp hr]
  · rcases hpe : process_entry e with _ | card
    · simp [stepLine, hw, hp, hpe]
    · rw [stepLine_entry_eq st e card hpe]

theorem procAll_processedCount (lines : List (Option RawEntry)) :
    ∀ (st : PState),
    (lines.foldl procLine st).processedCount =
      st.processedCount + lines.countP (·.isSome) := by
  induction lines with
  | nil => intro st; simp
  | cons line rest ih =>
    intro st
    rcases line with _ | e
    · simp only [List.foldl_cons, List.countP_cons]
      show (rest.foldl procLine st).processedCount = _
      rw [ih st]
      simp
    · simp only [List.foldl_cons, List.countP_cons]
      show (rest.foldl procLine (stepLine st e)).processedCount = _
      rw [ih (stepLine st e), stepLine_processedCount]
      simp [Option.isSome]
      omega

theorem parseErrorsFrom_length (lines : List (Option RawEntry)) :
    ∀ (n : Nat), (parseErrorsFrom n lines).length = lines.countP (·.isNone) := by
  induction lines with
  | nil => intro n; simp [parseErrorsFrom]
  | cons line rest ih =>
    intro n
    rcases line with _ | e <;>
      simp [parseErrorsFrom, List.countP_cons, ih, Option.isNone]

theorem parseErrorsFrom_mem (l1 : List (Option RawEntry)) :
    ∀ (n : Nat) (l2 : List (Option RawEntry)),
    (n + l1.length) ∈ parseErrorsFrom n (l1 ++ none :: l2) := by
  induction l1 with
  | nil =>
    intro n l2
    simp [parseErrorsFrom]
  | cons line rest ih =>
    intro n l2
    rcases line with _ | e
    · simp only [List.cons_append, parseErrorsFrom, List.length_cons]
      refine List.mem_cons_of_mem n ?_
      have := ih (n + 1) l2
      have harith : n + 1 + rest.length = n + (rest.length + 1) := by omega
      rwa [harith] at this
    · simp only [List.cons_append, parseErrorsFrom, List.length_cons]
      have := ih (n + 1) l2
      have harith : n + 1 + rest.length = n + (rest.length + 1) := by omega
      rwa [harith] at this

/-- Claim C9, counterexample: two streams with the same valid lines but a
different number of malformed lines (one vs two, each logged when hit)
produce identical end-of-run summaries — the summary reports the
processed/combined/created counts only, so the count of skipped malformed
lines is not reported in it. -/
theorem c9_skip_count_absent_from_summary_counterexample :
    (parseErrors [some c9Entry, none]).length = 1 ∧
    (parseErrors [some c9Entry, none, none]).length = 2 ∧
    summaryOf [some c9Entry, none] c9Freq 0 =
      summaryOf [some c9Entry, none, none] c9Freq 0 := by
  decide

/-- Claim C9 as amended: a line that fails to parse is skipped and never
aborts processing — the run state is exactly that of the stream without the
malformed line, every line gets processed and prior results persist; each
malformed line produces one warning naming its line number, and the number
of warnings equals the number of malformed lines; but the end-of-run
summary's `Processed` count counts the successfully parsed lines, and no
count of skipped lines appears in the summary (see the counterexample). -/
theorem c9_malformed_lines_skipped (l1 l2 lines : List (Option RawEntry))
    (fd : List (String × Nat)) (ml : Nat) :
    procAll (l1 ++ none :: l2) = procAll (l1 ++ l2) ∧
    (l1.length + 1) ∈ parseErrors (l1 ++ none :: l2) ∧
    (parseErrors lines).length = lines.countP (·.isNone) ∧
    (summaryOf lines fd ml).processed = lines.countP (·.isSome) := by
  refine ⟨?_, ?_, parseErrorsFrom_length lines 1, ?_⟩
  · simp only [procAll, List.foldl_append, List.foldl_cons]
    rfl
  · have := parseErrorsFrom_mem l1 1 l2
    rwa [Nat.add_comm 1 l1.length] at this
  · show (procAll lines).processedCount = _
    rw [procAll, procAll_processedCount lines initState]
    simp [initState]

/-- Witness for C9 as amended at a concrete two-line stream. -/
theorem c9_malformed_lines_skipped_witness :
    procAll [some c9Entry, none] = procAll [some c9Entry] ∧
    2 ∈ parseErrors [some c9Entry, none] ∧
    (summaryOf [some c9Entry, none] c9Freq 0).processed = 1 := by
  have h := c9_malformed_lines_skipped [some c9Entry] [] [some c9Entry, none] c9Freq 0
  refine ⟨h.1, ?_, ?_⟩
  · have := h.2.1
    simpa using this
  · rw [h.2.2.2]
    decide

theorem mem_freqCandidates {t : Nat × String × Card} {combined : List (String × Card)}
    {fd : List (String × Nat)} {minLen : Nat}
    (ht : t ∈ freqCandidates combined fd minLen) :
    alookup (pyLower t.2.1) fd = some t.1 := by
  obtain ⟨p, _, hp⟩ := List.mem_filterMap.mp ht
  by_cases hlen : p.2.back.length ≥ minLen
  · rw [if_pos hlen] at hp
    rcases halo : alookup (pyLower p.1) fd with _ | f
    · rw [halo] at hp
      exact absurd hp (by simp)
    · rw [halo] at hp
      have hp2 : (f, p.1, p.2) = t := by simpa using hp
      rw [← hp2]
      exact halo
  · rw [if_neg hlen] at hp
    exact absurd hp (by simp)

theorem mem_selectTopCards {t : Nat × String × Card} {combined : List (String × Card)}
    {fd : List (String × Nat)} {minLen maxCards : Nat}
    (ht : t ∈ selectTopCards combined fd minLen maxCards) :
    t ∈ freqCandidates combined fd minLen := by
  have h1 : t ∈ (freqCandidates combined fd minLen).insertionSort rankLe :=
    List.take_subset _ _ ht
  exact (List.perm_insertionSort rankLe _).subset h1

theorem map_fst_enumFrom {α β : Type} (l : List α) :
    ∀ (n : Nat) (f : Nat → β),
    (List.enumFrom n l).map (fun p => f p.1) = (List.range' n l.length).map f := by
  induction l with
  | nil => intro n f; rfl
  | cons a l ih =>
    intro n f
    simp only [List.enumFrom, List.map_cons, List.length_cons, List.range']
    rw [ih (n + 1) f]

theorem writeRows_frequency (top : List (Nat × String × Card)) :
    (writeRows top).map (·.frequency) =
      (List.range top.length).map (fun i => toString (i + 1)) := by
  show ((top.enum.map _).map _ = _)
  rw [List.map_map]
  have : ((fun c : Card => c.frequency) ∘
      fun p : Nat × (Nat × String × Card) =>
        ({ p.2.2.2 with frequency := toString (p.1 + 1) } : Card)) =
      fun p : Nat × (Nat × String × Card) => toString (p.1 + 1) := rfl
  rw [this]
  show (List.enumFrom 0 top).map _ = _
  rw [map_fst_enumFrom top 0 (fun i => toString (i + 1)), ← List.range_eq_range']

/-- Claim C3: under the resort-and-truncate policy (`min-def-length` at its
default 0), every surviving triple carries the frequency-map rank of its
(lowercased) headword — records without a frequency entry are dropped; at
most the configured maximum survive; survivors are ordered by ascending
original corpus rank; when the candidate count is within the cap nothing
else is dropped; and the persisted `Frequency` strings of the N written
rows are exactly `"1"`..`"N"` in order — the renumbered value, not the
corpus rank. -/
theorem c3_resort_truncate_renumbers (combined : List (String × Card))
    (fd : List (String × Nat)) (maxCards : Nat) :
    (∀ t ∈ selectTopCards combined fd 0 maxCards,
      alookup (pyLower t.2.1) fd = some t.1) ∧
    (selectTopCards combined fd 0 maxCards).length ≤ maxCards ∧
    ((selectTopCards combined fd 0 maxCards).map (·.1)).Pairwise (· ≤ ·) ∧
    ((freqCandidates combined fd 0).length ≤ maxCards →
      (selectTopCards combined fd 0 maxCards).Perm (freqCandidates combined fd 0)) ∧
    (writeRows (selectTopCards combined fd 0 maxCards)).map (·.frequency) =
      (List.range (selectTopCards combined fd 0 maxCards).length).map
        (fun i => toString (i + 1)) := by
  refine ⟨?_, ?_, ?_, ?_, writeRows_frequency _⟩
  · intro t ht
    exact mem_freqCandidates (mem_selectTopCards ht)
  · exact List.length_take_le _ _
  · have hsorted : ((freqCandidates combined fd 0).insertionSort rankLe).Pairwise rankLe :=
      List.sorted_insertionSort rankLe _
    have htake : (selectTopCards combined fd 0 maxCards).Pairwise rankLe :=
      hsorted.sublist (List.take_sublist _ _)
    exact (List.pairwise_map).mpr htake
  · intro hle
    have hlen : ((freqCandidates combined fd 0).insertionSort rankLe).length ≤ maxCards := by
      rw [(List.perm_insertionSort rankLe _).length_eq]
      exact hle
    rw [selectTopCards, List.take_of_length_le hlen]
    exact List.perm_insertionSort rankLe _

/-- Witness for C3: the sole survivor with corpus rank 37 is persisted with
frequency `"1"`, not `"37"`. -/
theorem c3_resort_truncate_renumbers_witness :
    (writeRows (selectTopCards [("猫", c3CatCard)] [("猫", 37)] 0 1)).map (·.frequency) =
      ["1"] ∧
    (selectTopCards [("猫", c3CatCard)] [("猫", 37)] 0 1).length ≤ 1 ∧
    (∀ t ∈ selectTopCards [("猫", c3CatCard)] [("猫", 37)] 0 1,
      alookup (pyLower t.2.1) [("猫", 37)] = some t.1) := by
  have h := c3_resort_truncate_renumbers [("猫", c3CatCard)] [("猫", 37)] 1
  refine ⟨?_, h.2.1, h.1⟩
  rw [h.2.2.2.2]
  decide

end WikiAnki
